import Mathlib

/-!
Verification development for the gilded-promise backend (`src/server.js`).

The shallow embedding below translates the price-acquisition engine
(`fetchGoldPriceWithRetry`), the extraction of the gold price from the
scraped page, and the pricing/query engine of `GET /api/products` into
Lean definitions over exact rationals.  JavaScript numbers are modelled
as `ℚ`; the IEEE special values (`NaN`, infinities) that genuinely arise
in the code — `parseFloat` returning `NaN`, and the ratio comparator
dividing by zero — are modelled explicitly (`Option ℚ` for parse
results, `JSNum` for comparator values).  `parseFloat` is modelled for
decimal literals with optional exponent (the `Infinity` literal is out
of scope).  `Array.prototype.sort` is modelled as a stable insertion
sort driven by the code's comparator, matching the ECMAScript contract
for consistent comparators.
-/

namespace Gilded

/-- Whitespace test used by the models of `String.prototype.trim` and of
`parseFloat`'s leading-whitespace skipping. -/
def jsIsSpace (c : Char) : Bool :=
  c = ' ' || c = '\t' || c = '\n' || c = '\r'

/-- Decimal digit test. -/
def isDigitCh (c : Char) : Bool :=
  decide ('0' ≤ c) && decide (c ≤ '9')

/-- Numeric value of a decimal digit character. -/
def digitVal (c : Char) : ℕ := c.toNat - 48

/-- Value of a big-endian list of decimal digit characters. -/
def natOfDigits (ds : List Char) : ℕ :=
  ds.foldl (fun n c => 10 * n + digitVal c) 0

/-- Mantissa and exponent scanning of `parseFloat`, after sign handling:
reads `digits [. digits] [e|E [sign] digits]` as the longest valid
numeric prefix and ignores any trailing characters, returning `none`
(JavaScript `NaN`) when no digit occurs in the mantissa. -/
def parseFloatAfterSign (cs : List Char) : Option ℚ :=
  let ip := cs.takeWhile isDigitCh
  let r1 := cs.dropWhile isDigitCh
  let fp := match r1 with
    | '.' :: t => t.takeWhile isDigitCh
    | _ => []
  let r2 := match r1 with
    | '.' :: t => t.dropWhile isDigitCh
    | _ => r1
  if ip.isEmpty && fp.isEmpty then none
  else
    let mant : ℚ := (natOfDigits ip : ℚ) + (natOfDigits fp : ℚ) / 10 ^ fp.length
    let ex : ℤ := match r2 with
      | 'e' :: '-' :: u =>
        if (u.takeWhile isDigitCh).isEmpty then 0 else -(natOfDigits (u.takeWhile isDigitCh) : ℤ)
      | 'E' :: '-' :: u =>
        if (u.takeWhile isDigitCh).isEmpty then 0 else -(natOfDigits (u.takeWhile isDigitCh) : ℤ)
      | 'e' :: '+' :: u =>
        if (u.takeWhile isDigitCh).isEmpty then 0 else (natOfDigits (u.takeWhile isDigitCh) : ℤ)
      | 'E' :: '+' :: u =>
        if (u.takeWhile isDigitCh).isEmpty then 0 else (natOfDigits (u.takeWhile isDigitCh) : ℤ)
      | 'e' :: u =>
        if (u.takeWhile isDigitCh).isEmpty then 0 else (natOfDigits (u.takeWhile isDigitCh) : ℤ)
      | 'E' :: u =>
        if (u.takeWhile isDigitCh).isEmpty then 0 else (natOfDigits (u.takeWhile isDigitCh) : ℤ)
      | _ => 0
    some (mant * (10 : ℚ) ^ ex)

/-- Model of JavaScript `parseFloat`: skip leading whitespace, read an
optional sign, then the longest decimal-literal prefix; `none` models
`NaN`. -/
def jsParseFloat (s : String) : Option ℚ :=
  let cs := s.data.dropWhile jsIsSpace
  match cs with
  | '-' :: t => (parseFloatAfterSign t).map (fun q => -q)
  | '+' :: t => parseFloatAfterSign t
  | _ => parseFloatAfterSign cs

/-- Model of `String.prototype.trim`: strip whitespace from both ends. -/
def jsTrim (s : String) : String :=
  ⟨((s.data.dropWhile jsIsSpace).reverse.dropWhile jsIsSpace).reverse⟩

/-- Replacement list of `"str".replace(",", ".")`: only the first comma
is replaced by a dot. -/
def replaceFirstCommaAux : List Char → List Char
  | [] => []
  | ',' :: t => '.' :: t
  | c :: t => c :: replaceFirstCommaAux t

/-- Model of `priceStr.replace(",", ".")` from `src/server.js` line 65:
replace the first comma (if any) by a dot. -/
def replaceFirstComma (s : String) : String :=
  ⟨replaceFirstCommaAux s.data⟩

/-- Test whether `needle` occurs at the head of `hay`. -/
def beginsWith : List Char → List Char → Bool
  | [], _ => true
  | _ :: _, [] => false
  | n :: ns, h :: hs => n = h && beginsWith ns hs

/-- Substring containment on character lists, modelling
`String.prototype.includes`. -/
def containsSub (needle : List Char) : List Char → Bool
  | [] => needle.isEmpty
  | h :: hs => beginsWith needle (h :: hs) || containsSub needle hs

/-- Model of `s.toLowerCase()` (ASCII). -/
def jsToLower (s : String) : String := ⟨s.data.map Char.toLower⟩

/-- Test from `src/server.js` line 43-44: lowercase the label text and
check that it includes the unit keyword `"gram"`. -/
def hasGram (s : String) : Bool :=
  containsSub "gram".data (jsToLower s).data

/-- Candidate node of the scraped page: one `li.flex.items-center`
element, carrying the inner text of its label node
(`p.CommodityPrice_priceName__Ehicd`, absent when the selector finds
nothing) and the inner text of its value node
(`p.CommodityPrice_convertPrice__5Addh`, absent likewise). -/
structure LiNode where
  priceName : Option String
  convertPrice : Option String
deriving DecidableEq, Repr

/-- Failure cases of the extraction section of `fetchGoldPriceWithRetry`
(`src/server.js` lines 53-69): the three `throw new Error(...)` sites. -/
inductive ExtractionError where
  | targetNotFound
  | priceElemNotFound
  | parseFailed
deriving DecidableEq, Repr

/-- Transcription of the target-search loop in `src/server.js` lines
39-51: walk the candidates in order, skip those without a label node,
and stop at the first whose lowercased label text includes `"gram"`. -/
def findTargetLoop : List LiNode → Option LiNode
  | [] => none
  | li :: rest =>
    match li.priceName with
    | none => findTargetLoop rest
    | some s => if hasGram s then some li else findTargetLoop rest

/-- Extraction section of `fetchGoldPriceWithRetry` (`src/server.js`
lines 37-70): find the target candidate, require its value node, trim
the value text, replace the first comma by a dot, and `parseFloat` it,
failing when the result is `NaN`. -/
def extract (lis : List LiNode) : Except ExtractionError ℚ :=
  match findTargetLoop lis with
  | none => .error .targetNotFound
  | some li =>
    match li.convertPrice with
    | none => .error .priceElemNotFound
    | some s =>
      match jsParseFloat (replaceFirstComma (jsTrim s)) with
      | none => .error .parseFailed
      | some v => .ok v

/-- Label predicate of the spec's first-match policy: the candidate has
a label node whose text contains the unit keyword case-insensitively. -/
def labelMatches (li : LiNode) : Bool :=
  match li.priceName with
  | none => false
  | some s => hasGram s

/-- Extractor stated in the spec's vocabulary (§4.1, amended to the
code's normalization): select the first candidate satisfying
`labelMatches` with `List.find?`, then normalize (trim, first comma to
dot) and parse the value text. -/
def specExtract (lis : List LiNode) : Except ExtractionError ℚ :=
  match lis.find? labelMatches with
  | none => .error .targetNotFound
  | some li =>
    match li.convertPrice with
    | none => .error .priceElemNotFound
    | some s =>
      match jsParseFloat (replaceFirstComma (jsTrim s)) with
      | none => .error .parseFailed
      | some v => .ok v

/-- Extractor following the claim's words verbatim, for comparison with
`extract`: the claim additionally strips a leading currency symbol from
the value text before parsing.  `src/server.js` performs no such
stripping. -/
def claimExtractStripCurrency (lis : List LiNode) : Except ExtractionError ℚ :=
  match lis.find? labelMatches with
  | none => .error .targetNotFound
  | some li =>
    match li.convertPrice with
    | none => .error .priceElemNotFound
    | some s =>
      let t := jsTrim s
      let t1 : String := match t.data with
        | '$' :: r => ⟨r⟩
        | '€' :: r => ⟨r⟩
        | '£' :: r => ⟨r⟩
        | r => ⟨r⟩
      match jsParseFloat (replaceFirstComma t1) with
      | none => .error .parseFailed
      | some v => .ok v

/-- Initial value of the module-level cache (`src/server.js` line 14:
`let goldPrice = 0;`): the `Unset` state is encoded as the number `0`. -/
def goldPriceInit : ℚ := 0

/-- Fallback default committed on exhaustion (`src/server.js` line 77). -/
def defaultGoldPrice : ℚ := 9267 / 100

/-- State transform of one acquisition cycle, `fetchGoldPriceWithRetry`
(`src/server.js` lines 16-87).  `attempts` lists the outcome of each of
the `retries` attempts in order: `some v` when navigation, target
search and parsing succeed with value `v` (committed, remaining
attempts never run), `none` when the attempt throws.  On the last
failed attempt the fallback runs: `if (!goldPrice) goldPrice = 92.67`,
where `!goldPrice` is JavaScript falsiness of the number, i.e. `= 0`. -/
def runRetry : List (Option ℚ) → ℚ → ℚ
  | [], g => g
  | some v :: _, _ => v
  | none :: rest, g =>
    if rest.isEmpty then (if g = 0 then defaultGoldPrice else g) else runRetry rest g

/-- Ghost instrumentation of `runRetry`: whether the cycle executes an
assignment to `goldPrice` (line 70 on success, line 77 on fallback). -/
def runRetryCommits : List (Option ℚ) → ℚ → Bool
  | [], _ => false
  | some _ :: _, _ => true
  | none :: rest, g =>
    if rest.isEmpty then decide (g = 0) else runRetryCommits rest g

/-- Cache value after a sequence of acquisition cycles starting from the
initial `Unset` encoding `0`; each element of `h` is one cycle's
attempt-outcome list. -/
def priceAfterHistory (h : List (List (Option ℚ))) : ℚ :=
  h.foldl (fun g c => runRetry c g) goldPriceInit

/-- Catalog record from `products.json` (the file is external to the
backend sources; its fields used by the server are `weight` and
`popularityScore`, the rest are carried through by the object spread). -/
structure Product where
  id : ℕ
  name : String
  weight : ℚ
  popularityScore : ℚ
deriving DecidableEq, Repr

/-- Response record produced by the `/api/products` handler: the catalog
fields plus the computed integer `price` and one-decimal `rating`. -/
structure PricedProduct where
  id : ℕ
  name : String
  weight : ℚ
  popularityScore : ℚ
  price : ℤ
  rating : ℚ
deriving DecidableEq, Repr

/-- Model of `Math.round`: nearest integer, ties toward positive
infinity. -/
def jsMathRound (x : ℚ) : ℤ := ⌊x + 1 / 2⌋

/-- Model of `parseFloat(x.toFixed(1))`: round to one decimal place,
ties toward positive infinity. -/
def jsToFixed1 (x : ℚ) : ℚ := (jsMathRound (x * 10) : ℚ) / 10

/-- Mapping step of the handler (`src/server.js` lines 102-113):
`price = Math.round((popularityScore + 1) * weight * goldPrice)` and
`rating = parseFloat((popularityScore * 5).toFixed(1))`, with the
catalog fields spread into the result. -/
def computePriced (g : ℚ) (p : Product) : PricedProduct :=
  { id := p.id
    name := p.name
    weight := p.weight
    popularityScore := p.popularityScore
    price := jsMathRound ((p.popularityScore + 1) * p.weight * g)
    rating := jsToFixed1 (p.popularityScore * 5) }

/-- Priced entries of the whole catalog (`products.map(...)`). -/
def computeAll (g : ℚ) (cat : List Product) : List PricedProduct :=
  cat.map (computePriced g)

/-- Query parameters of `GET /api/products`; each is `none` when absent
from the query string. -/
structure Query where
  minPrice : Option String := none
  maxPrice : Option String := none
  minRating : Option String := none
  maxRating : Option String := none
  sortBy : Option String := none
deriving DecidableEq, Repr

/-- JavaScript truthiness of an optional string parameter: `undefined`
and the empty string are falsy, every other string is truthy. -/
def jsTruthy (o : Option String) : Bool :=
  match o with
  | none => false
  | some s => s ≠ ""

/-- Comparison `x >= y` where `y` is a `parseFloat` result: compares
false when `y` is `NaN`. -/
def jsGe (x : ℚ) (y : Option ℚ) : Bool :=
  match y with
  | none => false
  | some q => decide (q ≤ x)

/-- Comparison `x <= y` where `y` is a `parseFloat` result: compares
false when `y` is `NaN`. -/
def jsLe (x : ℚ) (y : Option ℚ) : Bool :=
  match y with
  | none => false
  | some q => decide (x ≤ q)

/-- Filter chain of the handler (`src/server.js` lines 115-123): each
bound, when truthy, keeps the entries whose field compares against
`parseFloat` of the bound string. -/
def applyFilters (q : Query) (l : List PricedProduct) : List PricedProduct :=
  let l1 := if jsTruthy q.minPrice then
    l.filter (fun p => jsGe (p.price : ℚ) (jsParseFloat (q.minPrice.getD ""))) else l
  let l2 := if jsTruthy q.maxPrice then
    l1.filter (fun p => jsLe (p.price : ℚ) (jsParseFloat (q.maxPrice.getD ""))) else l1
  let l3 := if jsTruthy q.minRating then
    l2.filter (fun p => jsGe p.rating (jsParseFloat (q.minRating.getD ""))) else l2
  let l4 := if jsTruthy q.maxRating then
    l3.filter (fun p => jsLe p.rating (jsParseFloat (q.maxRating.getD ""))) else l3
  l4

/-- Declarative satisfaction of the filter bounds, for relating
`applyFilters` to the spec's conjunctive-inclusive reading: a truthy
bound passes when its text parses and the inclusive comparison holds. -/
def passBound (b : Option String) (cmp : ℚ → Option ℚ → Bool) (v : ℚ) : Bool :=
  if jsTruthy b then cmp v (jsParseFloat (b.getD "")) else true

/-- Conjunction of the four filter bounds on one entry. -/
def passesBounds (q : Query) (x : PricedProduct) : Bool :=
  passBound q.minPrice jsGe (x.price : ℚ) &&
  passBound q.maxPrice jsLe (x.price : ℚ) &&
  passBound q.minRating jsGe x.rating &&
  passBound q.maxRating jsLe x.rating

/-- JavaScript number as produced by the sort comparators: a finite
rational or one of the IEEE special values. -/
inductive JSNum where
  | num : ℚ → JSNum
  | posInf : JSNum
  | negInf : JSNum
  | nan : JSNum
deriving DecidableEq, Repr

/-- IEEE division of finite values `x / y` as a `JSNum`: division by
zero yields an infinity of the sign of `x`, or `NaN` for `0 / 0`. -/
def jsDivQ (x y : ℚ) : JSNum :=
  if y = 0 then
    (if 0 < x then .posInf else if x < 0 then .negInf else .nan)
  else .num (x / y)

/-- IEEE subtraction on `JSNum`. -/
def jsSubNum : JSNum → JSNum → JSNum
  | .nan, _ => .nan
  | _, .nan => .nan
  | .posInf, .posInf => .nan
  | .posInf, _ => .posInf
  | .negInf, .negInf => .nan
  | .negInf, _ => .negInf
  | .num _, .posInf => .negInf
  | .num _, .negInf => .posInf
  | .num a, .num b => .num (a - b)

/-- Strict positivity of a comparator result; `NaN` is not positive. -/
def jsPosNum : JSNum → Bool
  | .num q => decide (0 < q)
  | .posInf => true
  | _ => false

/-- Strict negativity of a comparator result; `NaN` is not negative. -/
def jsNegNum : JSNum → Bool
  | .num q => decide (q < 0)
  | .negInf => true
  | _ => false

/-- Comparator of `sortBy=price` (`src/server.js` line 128):
`(a, b) => a.price - b.price`. -/
def priceCmp (a b : PricedProduct) : JSNum :=
  .num ((a.price : ℚ) - (b.price : ℚ))

/-- Comparator of `sortBy=rating` (`src/server.js` line 130):
`(a, b) => b.rating - a.rating`. -/
def ratingCmp (a b : PricedProduct) : JSNum :=
  .num (b.rating - a.rating)

/-- Comparator of `sortBy=ratio` (`src/server.js` line 132):
`(a, b) => b.rating / b.price - a.rating / a.price`, with IEEE
semantics when a price is zero. -/
def ratioCmp (a b : PricedProduct) : JSNum :=
  jsSubNum (jsDivQ b.rating (b.price : ℚ)) (jsDivQ a.rating (a.price : ℚ))

/-- Insertion step of the stable sort model: `x` stays before `y`
exactly when the comparator does not order `x` after `y`. -/
def jsSortInsert (le : PricedProduct → PricedProduct → Bool) (x : PricedProduct) :
    List PricedProduct → List PricedProduct
  | [] => [x]
  | y :: ys => if le x y then x :: y :: ys else y :: jsSortInsert le x ys

/-- Stable insertion-sort model of `Array.prototype.sort` with a
comparator; `le a b` is true when the comparator result for `(a, b)` is
not positive (the ECMAScript placement rule). -/
def jsSort (le : PricedProduct → PricedProduct → Bool) :
    List PricedProduct → List PricedProduct
  | [] => []
  | x :: xs => jsSortInsert le x (jsSort le xs)

/-- Placement relation induced by a comparator: `a` may stay before `b`
unless the comparator result is positive. -/
def cmpLe (cmp : PricedProduct → PricedProduct → JSNum) (a b : PricedProduct) : Bool :=
  !(jsPosNum (cmp a b))

/-- Ordering step of the handler (`src/server.js` lines 125-134): sort
only when `sortBy` is truthy and equal to one of the three known keys;
otherwise leave the list as produced by the filters. -/
def applySort (sb : Option String) (l : List PricedProduct) : List PricedProduct :=
  if jsTruthy sb then
    if sb.getD "" = "price" then jsSort (cmpLe priceCmp) l
    else if sb.getD "" = "rating" then jsSort (cmpLe ratingCmp) l
    else if sb.getD "" = "ratio" then jsSort (cmpLe ratioCmp) l
    else l
  else l

/-- Whole body of the `GET /api/products` handler (`src/server.js`
lines 100-137): map, filter, sort. -/
def handleProducts (q : Query) (g : ℚ) (cat : List Product) : List PricedProduct :=
  applySort q.sortBy (applyFilters q (computeAll g cat))

/-- HTTP response of the products endpoint; the handler only ever
builds the `json` form (`res.json(result)`), the error form exists to
state that fact. -/
inductive ApiResponse where
  | json : List PricedProduct → ApiResponse
  | httpError : ℕ → ApiResponse
deriving DecidableEq, Repr

/-- Handler as a response producer. -/
def productsHandler (q : Query) (g : ℚ) (cat : List Product) : ApiResponse :=
  .json (handleProducts q g cat)

/-- Serving model of `startServer` (`src/server.js` lines 93-147): the
first cycle is awaited before the route is installed, so every request
reads the cache value left by the completed acquisition history. -/
def serveRequest (h : List (List (Option ℚ))) (q : Query) (cat : List Product) :
    ApiResponse :=
  productsHandler q (priceAfterHistory h) cat

/-- Spec-side placement relation for `sortBy=ratio` over exact
rationals, total on all entries; it agrees with the code's comparator
whenever both prices are positive. -/
def ratioLeQ (a b : PricedProduct) : Bool :=
  decide (b.rating / (b.price : ℚ) ≤ a.rating / (a.price : ℚ))

lemma mem_jsSortInsert (le : PricedProduct → PricedProduct → Bool) (x y : PricedProduct) :
    ∀ l : List PricedProduct, y ∈ jsSortInsert le x l ↔ y = x ∨ y ∈ l := by
  intro l
  induction l with
  | nil => simp [jsSortInsert]
  | cons z zs ih =>
    by_cases h : le x z = true
    · simp [jsSortInsert, h]
    · simp only [jsSortInsert, if_neg h, List.mem_cons, ih]
      tauto

lemma mem_jsSort (le : PricedProduct → PricedProduct → Bool) (y : PricedProduct) :
    ∀ l : List PricedProduct, y ∈ jsSort le l ↔ y ∈ l := by
  intro l
  induction l with
  | nil => simp [jsSort]
  | cons z zs ih => simp [jsSort, mem_jsSortInsert, ih]

lemma pairwise_jsSortInsert (le : PricedProduct → PricedProduct → Bool)
    (htot : ∀ a b, le a b = true ∨ le b a = true)
    (htrans : ∀ a b c, le a b = true → le b c = true → le a c = true)
    (x : PricedProduct) :
    ∀ l : List PricedProduct, l.Pairwise (fun a b => le a b = true) →
      (jsSortInsert le x l).Pairwise (fun a b => le a b = true) := by
  intro l
  induction l with
  | nil => intro _; simp [jsSortInsert]
  | cons y ys ih =>
    intro hp
    rcases List.pairwise_cons.mp hp with ⟨hy, hys⟩
    by_cases h : le x y = true
    · rw [jsSortInsert, if_pos h]
      refine List.pairwise_cons.mpr ⟨?_, hp⟩
      intro b hb
      rcases List.mem_cons.mp hb with rfl | hb
      · exact h
      · exact htrans x y b h (hy b hb)
    · rw [jsSortInsert, if_neg h]
      refine List.pairwise_cons.mpr ⟨?_, ih hys⟩
      intro b hb
      rcases (mem_jsSortInsert le x b ys).mp hb with heq | hb
      · subst heq
        rcases htot b y with hxy | hyx
        · exact absurd hxy h
        · exact hyx
      · exact hy b hb

lemma pairwise_jsSort (le : PricedProduct → PricedProduct → Bool)
    (htot : ∀ a b, le a b = true ∨ le b a = true)
    (htrans : ∀ a b c, le a b = true → le b c = true → le a c = true) :
    ∀ l : List PricedProduct, (jsSort le l).Pairwise (fun a b => le a b = true) := by
  intro l
  induction l with
  | nil => simp [jsSort]
  | cons x xs ih => exact pairwise_jsSortInsert le htot htrans x _ ih

lemma jsSortInsert_congr (le₁ le₂ : PricedProduct → PricedProduct → Bool) (x : PricedProduct) :
    ∀ l : List PricedProduct, (∀ b ∈ l, le₁ x b = le₂ x b) →
      jsSortInsert le₁ x l = jsSortInsert le₂ x l := by
  intro l
  induction l with
  | nil => intro _; rfl
  | cons y ys ih =>
    intro hagree
    have hxy : le₁ x y = le₂ x y := hagree y (List.mem_cons_self y ys)
    by_cases h : le₁ x y = true
    · rw [jsSortInsert, if_pos h, jsSortInsert, if_pos (hxy ▸ h)]
    · rw [jsSortInsert, if_neg h, jsSortInsert, if_neg (hxy ▸ h),
        ih (fun b hb => hagree b (List.mem_cons_of_mem y hb))]

lemma jsSort_congr (le₁ le₂ : PricedProduct → PricedProduct → Bool) :
    ∀ l : List PricedProduct, (∀ a ∈ l, ∀ b ∈ l, le₁ a b = le₂ a b) →
      jsSort le₁ l = jsSort le₂ l := by
  intro l
  induction l with
  | nil => intro _; rfl
  | cons x xs ih =>
    intro hagree
    have htail : jsSort le₁ xs = jsSort le₂ xs :=
      ih (fun a ha b hb => hagree a (List.mem_cons_of_mem x ha) b (List.mem_cons_of_mem x hb))
    rw [jsSort, jsSort, htail]
    refine jsSortInsert_congr le₁ le₂ x _ (fun b hb => ?_)
    have hb' : b ∈ xs := (mem_jsSort le₂ b xs).mp hb
    exact hagree x (List.mem_cons_self x xs) b (List.mem_cons_of_mem x hb')

lemma mem_filterStep (c : Bool) (f : PricedProduct → Bool) (l : List PricedProduct)
    (x : PricedProduct) :
    (x ∈ if c then l.filter f else l) ↔ x ∈ l ∧ (if c then f x else true) = true := by
  cases c <;> simp [List.mem_filter]

lemma mem_applyFilters (q : Query) (l : List PricedProduct) (x : PricedProduct) :
    x ∈ applyFilters q l ↔ x ∈ l ∧ passesBounds q x = true := by
  simp only [applyFilters, passesBounds, passBound]
  rw [mem_filterStep, mem_filterStep, mem_filterStep, mem_filterStep]
  simp only [Bool.and_eq_true]
  tauto

lemma applyFilters_sublist (q : Query) (l : List PricedProduct) :
    List.Sublist (applyFilters q l) l := by
  simp only [applyFilters]
  have step : ∀ (c : Bool) (f : PricedProduct → Bool) (m : List PricedProduct),
      List.Sublist (if c then m.filter f else m) m := by
    intro c f m
    cases c
    · simp
    · simp only [if_pos]
      exact List.filter_sublist m
  exact ((step _ _ _).trans ((step _ _ _).trans ((step _ _ _).trans (step _ _ _))))

lemma applyFilters_eq_nil (q : Query) (l : List PricedProduct)
    (h : ∀ x ∈ l, passesBounds q x = false) : applyFilters q l = [] := by
  rw [List.eq_nil_iff_forall_not_mem]
  intro x hx
  rcases (mem_applyFilters q l x).mp hx with ⟨hxl, hpass⟩
  rw [h x hxl] at hpass
  exact Bool.false_ne_true hpass

lemma mem_applySort (sb : Option String) (l : List PricedProduct) (x : PricedProduct) :
    x ∈ applySort sb l ↔ x ∈ l := by
  rw [applySort]
  by_cases h : jsTruthy sb = true
  · rw [if_pos h]
    split
    · exact mem_jsSort _ x l
    · split
      · exact mem_jsSort _ x l
      · split
        · exact mem_jsSort _ x l
        · exact Iff.rfl
  · rw [if_neg h]

lemma applySort_nil (sb : Option String) : applySort sb [] = [] := by
  rw [applySort]
  by_cases h : jsTruthy sb = true
  · rw [if_pos h]
    split
    · rfl
    · split
      · rfl
      · split
        · rfl
        · rfl
  · rw [if_neg h]

lemma runRetry_allFail :
    ∀ (att : List (Option ℚ)) (g : ℚ), att ≠ [] → (∀ a ∈ att, a = none) →
      runRetry att g = if g = 0 then defaultGoldPrice else g := by
  intro att
  induction att with
  | nil => intro g h _; exact absurd rfl h
  | cons a rest ih =>
    intro g _ hall
    have ha : a = none := hall a (List.mem_cons_self a rest)
    subst ha
    rw [runRetry]
    by_cases hr : rest = []
    · subst hr
      simp
    · rw [if_neg (by simpa using hr)]
      exact ih g hr (fun b hb => hall b (List.mem_cons_of_mem none hb))

lemma runRetryCommits_fromUnset :
    ∀ att : List (Option ℚ), att ≠ [] → runRetryCommits att goldPriceInit = true := by
  intro att
  induction att with
  | nil => intro h; exact absurd rfl h
  | cons a rest ih =>
    intro _
    match a with
    | some v => rfl
    | none =>
      rw [runRetryCommits]
      by_cases hr : rest = []
      · subst hr
        simp [goldPriceInit]
      · rw [if_neg (by simpa using hr)]
        exact ih hr

lemma passBound_ge_iff (b : Option String) (v : ℚ) :
    passBound b jsGe v = true ↔
      ∀ s, b = some s → s ≠ "" → ∃ m, jsParseFloat s = some m ∧ m ≤ v := by
  match b with
  | none => simp [passBound, jsTruthy]
  | some s =>
    by_cases hs : s = ""
    · subst hs
      simp [passBound, jsTruthy]
    · rw [passBound, if_pos (by simp [jsTruthy, hs])]
      cases heq : jsParseFloat s with
      | none => simp [jsGe, heq, hs]
      | some m => simp [jsGe, heq, hs]

lemma passBound_le_iff (b : Option String) (v : ℚ) :
    passBound b jsLe v = true ↔
      ∀ s, b = some s → s ≠ "" → ∃ m, jsParseFloat s = some m ∧ v ≤ m := by
  match b with
  | none => simp [passBound, jsTruthy]
  | some s =>
    by_cases hs : s = ""
    · subst hs
      simp [passBound, jsTruthy]
    · rw [passBound, if_pos (by simp [jsTruthy, hs])]
      cases heq : jsParseFloat s with
      | none => simp [jsLe, heq, hs]
      | some m => simp [jsLe, heq, hs]

lemma passesBounds_iff (q : Query) (x : PricedProduct) :
    passesBounds q x = true ↔
      (∀ s, q.minPrice = some s → s ≠ "" → ∃ m, jsParseFloat s = some m ∧ m ≤ (x.price : ℚ))
      ∧ (∀ s, q.maxPrice = some s → s ≠ "" → ∃ m, jsParseFloat s = some m ∧ (x.price : ℚ) ≤ m)
      ∧ (∀ s, q.minRating = some s → s ≠ "" → ∃ m, jsParseFloat s = some m ∧ m ≤ x.rating)
      ∧ (∀ s, q.maxRating = some s → s ≠ "" → ∃ m, jsParseFloat s = some m ∧ x.rating ≤ m) := by
  rw [passesBounds, Bool.and_eq_true, Bool.and_eq_true, Bool.and_eq_true,
    passBound_ge_iff, passBound_le_iff, passBound_ge_iff, passBound_le_iff]
  tauto

/-- C1 (amended): filtering is conjunctive and inclusive, absent or
empty bounds impose no constraint and raise no error, and a present
bound whose text `parseFloat`s to `NaN` removes every entry (rather
than none): membership in the filtered list requires every truthy bound
to parse and to hold inclusively, a bound parsing to `NaN` makes the
result empty, and filtering preserves catalog order (sublist). -/
theorem C1_filter_semantics :
    ∀ (q : Query) (l : List PricedProduct) (x : PricedProduct),
      (x ∈ applyFilters q l ↔ x ∈ l
        ∧ (∀ s, q.minPrice = some s → s ≠ "" →
            ∃ m, jsParseFloat s = some m ∧ m ≤ (x.price : ℚ))
        ∧ (∀ s, q.maxPrice = some s → s ≠ "" →
            ∃ m, jsParseFloat s = some m ∧ (x.price : ℚ) ≤ m)
        ∧ (∀ s, q.minRating = some s → s ≠ "" →
            ∃ m, jsParseFloat s = some m ∧ m ≤ x.rating)
        ∧ (∀ s, q.maxRating = some s → s ≠ "" →
            ∃ m, jsParseFloat s = some m ∧ x.rating ≤ m))
      ∧ (∀ s, q.minPrice = some s → s ≠ "" → jsParseFloat s = none →
          applyFilters q l = [])
      ∧ (∀ s, q.maxPrice = some s → s ≠ "" → jsParseFloat s = none →
          applyFilters q l = [])
      ∧ (∀ s, q.minRating = some s → s ≠ "" → jsParseFloat s = none →
          applyFilters q l = [])
      ∧ (∀ s, q.maxRating = some s → s ≠ "" → jsParseFloat s = none →
          applyFilters q l = [])
      ∧ List.Sublist (applyFilters q l) l := by
  intro q l x
  refine ⟨?_, ?_, ?_, ?_, ?_, applyFilters_sublist q l⟩
  · rw [mem_applyFilters, passesBounds_iff]
  · intro s hsb hs hparse
    refine applyFilters_eq_nil q l (fun y _ => ?_)
    simp [passesBounds, passBound, jsTruthy, hsb, hs, hparse, jsGe]
  · intro s hsb hs hparse
    refine applyFilters_eq_nil q l (fun y _ => ?_)
    simp [passesBounds, passBound, jsTruthy, hsb, hs, hparse, jsLe]
  · intro s hsb hs hparse
    refine applyFilters_eq_nil q l (fun y _ => ?_)
    simp [passesBounds, passBound, jsTruthy, hsb, hs, hparse, jsGe]
  · intro s hsb hs hparse
    refine applyFilters_eq_nil q l (fun y _ => ?_)
    simp [passesBounds, passBound, jsTruthy, hsb, hs, hparse, jsLe]

/-- C1 witness: the characterization applied to a concrete malformed
bound; the single catalog entry is removed by `minPrice=abc`. -/
theorem C1_filter_semantics_witness :
    applyFilters { minPrice := some "abc" }
      [{ id := 1, name := "Ring", weight := 2, popularityScore := 1/2,
         price := 300, rating := 5/2 }] = [] :=
  (C1_filter_semantics { minPrice := some "abc" }
    [{ id := 1, name := "Ring", weight := 2, popularityScore := 1/2,
       price := 300, rating := 5/2 }]
    { id := 1, name := "Ring", weight := 2, popularityScore := 1/2,
      price := 300, rating := 5/2 }).2.1 "abc" rfl (by decide) rfl

/-- C1 counterexample: the claim says a malformed (non-numeric) bound
string removes no entries; on the code, `minPrice=abc` removes every
entry (`p.price >= NaN` is false), while the same request without the
bound returns the entry. -/
theorem C1_malformed_bound_counterexample :
    handleProducts { minPrice := some "abc" } 100
      [{ id := 1, name := "Ring", weight := 2, popularityScore := 1/2 }] = []
    ∧ handleProducts {} 100
      [{ id := 1, name := "Ring", weight := 2, popularityScore := 1/2 }] =
      [{ id := 1, name := "Ring", weight := 2, popularityScore := 1/2,
         price := 300, rating := 5/2 }] := by
  constructor
  · rfl
  · norm_num [handleProducts, applySort, applyFilters, computeAll, computePriced,
      jsTruthy, jsMathRound, jsToFixed1]

/-- C2 counterexample: the claim says that once any value was committed
the default is never re-applied on a later failed cycle; on the code, a
cycle that successfully commits the parsed value `0` leaves the cache
falsy, and the next failed cycle overwrites it with the default
`92.67`. -/
theorem C2_set_state_counterexample :
    runRetryCommits [some 0, none, none] goldPriceInit = true
    ∧ runRetry [some 0, none, none] goldPriceInit = 0
    ∧ runRetry [none, none, none] (runRetry [some 0, none, none] goldPriceInit) =
        defaultGoldPrice
    ∧ defaultGoldPrice ≠ 0 := by
  refine ⟨rfl, rfl, rfl, ?_⟩
  rw [defaultGoldPrice]
  norm_num

/-- C2 (amended): the cycle state machine moves `Unset → Set` and
`Set → Set` with the `Unset` test implemented as falsiness: a first
success commits the parsed value; a fully failed cycle leaves a
previously committed nonzero value unchanged; a fully failed cycle from
the zero-encoded state commits the fixed default `92.67`.  The
leave-unchanged guarantee holds only for committed values other than
`0`. -/
theorem C2_cycle_transitions :
    ∀ (g v : ℚ) (tail att : List (Option ℚ)),
      runRetry (some v :: tail) g = v
      ∧ (att ≠ [] → (∀ a ∈ att, a = none) → g ≠ 0 → runRetry att g = g)
      ∧ (att ≠ [] → (∀ a ∈ att, a = none) → runRetry att 0 = defaultGoldPrice) := by
  intro g v tail att
  refine ⟨rfl, ?_, ?_⟩
  · intro h1 h2 h3
    rw [runRetry_allFail att g h1 h2, if_neg h3]
  · intro h1 h2
    rw [runRetry_allFail att 0 h1 h2, if_pos rfl]

/-- C2 witness: the transitions at a concrete committed value `5` and a
concrete three-failure cycle. -/
theorem C2_cycle_transitions_witness :
    runRetry [some 7] 5 = 7
    ∧ runRetry [none, none, none] 5 = 5
    ∧ runRetry [none, none, none] 0 = defaultGoldPrice := by
  have h := C2_cycle_transitions 5 7 [] [none, none, none]
  exact ⟨h.1, h.2.1 (by simp) (by simp) (by norm_num), h.2.2 (by simp) (by simp)⟩

/-- C9: the first acquisition cycle always executes a commit when run
from the initial `Unset` encoding (a success commits the parsed value,
exhaustion commits the default), and the serving model reads the cache
value produced by folding the completed cycles starting from the first
cycle's result — so no request observes the pre-first-cycle state. -/
theorem C9_initial_cycle_before_serving :
    ∀ (first : List (Option ℚ)) (rest : List (List (Option ℚ))) (q : Query)
      (cat : List Product),
      first ≠ [] →
      runRetryCommits first goldPriceInit = true
      ∧ serveRequest (first :: rest) q cat =
          productsHandler q
            (rest.foldl (fun g c => runRetry c g) (runRetry first goldPriceInit)) cat := by
  intro first rest q cat h1
  refine ⟨runRetryCommits_fromUnset first h1, ?_⟩
  rw [serveRequest, priceAfterHistory, List.foldl_cons]

/-- C9 witness: a concrete fully failed first cycle commits (the
default) before any request is served. -/
theorem C9_initial_cycle_witness :
    runRetryCommits [none, none, none] goldPriceInit = true
    ∧ serveRequest [[none, none, none]] {} [] =
        productsHandler {}
          (List.foldl (fun g c => runRetry c g) (runRetry [none, none, none] goldPriceInit) []) [] :=
  C9_initial_cycle_before_serving [none, none, none] [] {} [] (by simp)

/-- C10: the `Unset` state is encoded as the number `0` and tested by
falsiness, so a successfully committed value `v` survives a subsequent
fully failed cycle exactly when `v ≠ 0`: a committed `0` is overwritten
with the default `92.67`. -/
theorem C10_falsy_unset_encoding :
    ∀ (v : ℚ) (att : List (Option ℚ)),
      att ≠ [] → (∀ a ∈ att, a = none) →
      goldPriceInit = 0
      ∧ runRetry [some v, none, none] goldPriceInit = v
      ∧ runRetry att (runRetry [some v, none, none] goldPriceInit) =
          (if v = 0 then defaultGoldPrice else v) := by
  intro v att h1 h2
  refine ⟨rfl, rfl, ?_⟩
  rw [show runRetry [some v, none, none] goldPriceInit = v from rfl,
    runRetry_allFail att v h1 h2]

/-- C10 witness: committing `0` and then failing a cycle re-applies the
default; committing `3` and then failing leaves `3`. -/
theorem C10_falsy_unset_witness :
    runRetry [none, none, none] (runRetry [some 0, none, none] goldPriceInit) =
      defaultGoldPrice
    ∧ runRetry [none, none, none] (runRetry [some 3, none, none] goldPriceInit) = 3 := by
  have h0 := C10_falsy_unset_encoding 0 [none, none, none] (by simp) (by simp)
  have h3 := C10_falsy_unset_encoding 3 [none, none, none] (by simp) (by simp)
  constructor
  · rw [h0.2.2, if_pos rfl]
  · rw [h3.2.2, if_neg (by norm_num)]

/-- C5: for a catalog entry with positive weight, popularity score in
`[0, 1]` and a nonnegative cached price, the computed price is the
round-half-up of `(popularityScore + 1) * weight * cachedPrice` and is
a nonnegative integer, and the rating is `popularityScore * 5` rounded
to one decimal, lying in `[0, 5]`. -/
theorem C5_pricing_formulas :
    ∀ (p : Product) (g : ℚ),
      0 < p.weight → 0 ≤ p.popularityScore → p.popularityScore ≤ 1 → 0 ≤ g →
      (computePriced g p).price = ⌊(p.popularityScore + 1) * p.weight * g + 1 / 2⌋
      ∧ 0 ≤ (computePriced g p).price
      ∧ (computePriced g p).rating = (⌊p.popularityScore * 5 * 10 + 1 / 2⌋ : ℚ) / 10
      ∧ 0 ≤ (computePriced g p).rating
      ∧ (computePriced g p).rating ≤ 5 := by
  intro p g hw hp0 hp1 hg
  have hx : 0 ≤ (p.popularityScore + 1) * p.weight * g :=
    mul_nonneg (mul_nonneg (by linarith) (le_of_lt hw)) hg
  have hr0 : (0 : ℤ) ≤ ⌊p.popularityScore * 5 * 10 + 1 / 2⌋ := by
    apply Int.le_floor.mpr
    push_cast
    linarith
  have hr50 : ⌊p.popularityScore * 5 * 10 + 1 / 2⌋ ≤ (50 : ℤ) := by
    have h51 : ⌊p.popularityScore * 5 * 10 + 1 / 2⌋ < 51 := by
      apply Int.floor_lt.mpr
      push_cast
      linarith
    omega
  refine ⟨rfl, ?_, rfl, ?_, ?_⟩
  · apply Int.le_floor.mpr
    push_cast
    linarith
  · show (0 : ℚ) ≤ (⌊p.popularityScore * 5 * 10 + 1 / 2⌋ : ℚ) / 10
    have : (0 : ℚ) ≤ (⌊p.popularityScore * 5 * 10 + 1 / 2⌋ : ℚ) := by exact_mod_cast hr0
    linarith
  · show (⌊p.popularityScore * 5 * 10 + 1 / 2⌋ : ℚ) / 10 ≤ 5
    have : (⌊p.popularityScore * 5 * 10 + 1 / 2⌋ : ℚ) ≤ 50 := by exact_mod_cast hr50
    linarith

/-- C5 witness: the formulas at the spec's end-to-end example
(`weight 2`, `popularityScore 0.5`, cached price `100`). -/
theorem C5_pricing_witness :
    (computePriced 100 { id := 1, name := "Ring", weight := 2, popularityScore := 1/2 }).price =
      ⌊((1 : ℚ)/2 + 1) * 2 * 100 + 1 / 2⌋
    ∧ 0 ≤ (computePriced 100 { id := 1, name := "Ring", weight := 2, popularityScore := 1/2 }).price
    ∧ (computePriced 100 { id := 1, name := "Ring", weight := 2, popularityScore := 1/2 }).rating =
      (⌊(1 : ℚ)/2 * 5 * 10 + 1 / 2⌋ : ℚ) / 10
    ∧ 0 ≤ (computePriced 100 { id := 1, name := "Ring", weight := 2, popularityScore := 1/2 }).rating
    ∧ (computePriced 100 { id := 1, name := "Ring", weight := 2, popularityScore := 1/2 }).rating ≤ 5 :=
  C5_pricing_formulas { id := 1, name := "Ring", weight := 2, popularityScore := 1/2 } 100
    (by norm_num) (by norm_num) (by norm_num) (by norm_num)

/-- Catalog entry whose computed price rounds to `0` at the default
cached price (weight one gram-thousandth, popularity `0.9`). -/
def zeroPriceA : Product := { id := 1, name := "A", weight := 1/1000, popularityScore := 9/10 }

/-- Second zero-price entry with a different rating (popularity `0.1`). -/
def zeroPriceB : Product := { id := 2, name := "B", weight := 2/1000, popularityScore := 1/10 }

/-- C4: the `ratio` comparator is not a fixed consistent rule at zero
prices.  Two catalog entries whose computed prices round to `0` but
whose ratings differ make the comparator evaluate to `NaN` in both
argument orders (`Infinity - Infinity`), and `NaN` is neither negative,
nor zero, nor positive, so the comparator induces no total,
deterministic order — the division NaN-propagates exactly as the claim
says it must not. -/
theorem C4_ratio_comparator_nan :
    (computePriced defaultGoldPrice zeroPriceA).price = 0
    ∧ (computePriced defaultGoldPrice zeroPriceB).price = 0
    ∧ (computePriced defaultGoldPrice zeroPriceA).rating ≠
        (computePriced defaultGoldPrice zeroPriceB).rating
    ∧ ratioCmp (computePriced defaultGoldPrice zeroPriceA)
        (computePriced defaultGoldPrice zeroPriceB) = JSNum.nan
    ∧ ratioCmp (computePriced defaultGoldPrice zeroPriceB)
        (computePriced defaultGoldPrice zeroPriceA) = JSNum.nan
    ∧ jsPosNum JSNum.nan = false
    ∧ jsNegNum JSNum.nan = false
    ∧ JSNum.nan ≠ JSNum.num 0 := by
  have hA : computePriced defaultGoldPrice zeroPriceA =
      { id := 1, name := "A", weight := 1/1000, popularityScore := 9/10,
        price := 0, rating := 9/2 } := by
    norm_num [computePriced, zeroPriceA, jsMathRound, jsToFixed1, defaultGoldPrice]
  have hB : computePriced defaultGoldPrice zeroPriceB =
      { id := 2, name := "B", weight := 2/1000, popularityScore := 1/10,
        price := 0, rating := 1/2 } := by
    norm_num [computePriced, zeroPriceB, jsMathRound, jsToFixed1, defaultGoldPrice]
  rw [hA, hB]
  refine ⟨rfl, rfl, by norm_num, ?_, ?_, rfl, rfl, by simp⟩
  · norm_num [ratioCmp, jsDivQ, jsSubNum]
  · norm_num [ratioCmp, jsDivQ, jsSubNum]

lemma findTargetLoop_eq_find? :
    ∀ lis : List LiNode, findTargetLoop lis = lis.find? labelMatches := by
  intro lis
  induction lis with
  | nil => rfl
  | cons li rest ih =>
    cases h : li.priceName with
    | none =>
      have hm : ¬labelMatches li = true := by simp [labelMatches, h]
      simp only [findTargetLoop, h]
      rw [List.find?_cons_of_neg _ hm, ih]
    | some s =>
      by_cases hg : hasGram s = true
      · have hm : labelMatches li = true := by simp [labelMatches, h, hg]
        simp only [findTargetLoop, h]
        rw [if_pos hg, List.find?_cons_of_pos _ hm]
      · have hm : ¬labelMatches li = true := by simp [labelMatches, h, hg]
        simp only [findTargetLoop, h]
        rw [if_neg hg, List.find?_cons_of_neg _ hm, ih]

/-- C7 (amended): the extractor selects the first candidate (in
enumeration order, the `List.find?` policy) whose label text contains
`"gram"` case-insensitively, and parses its value text after trimming
whitespace and replacing the first comma by a dot — with no currency
stripping: parsing is JavaScript `parseFloat` (longest numeric prefix,
`NaN` on none).  It fails exactly at the three error sites: no matching
candidate, missing value node, or `NaN` parse.  The fixtures exercise
the spec's examples: label containing `"gram"` with value `"123,45"`
yields `123.45`; zero matching labels fail. -/
theorem C7_extract_first_match :
    (∀ lis : List LiNode, extract lis = specExtract lis)
    ∧ extract [{ priceName := some "Gold gram", convertPrice := some "123,45" }] =
        Except.ok (123.45 : ℚ)
    ∧ extract [] = Except.error ExtractionError.targetNotFound
    ∧ extract [{ priceName := some "ounce", convertPrice := some "5" }] =
        Except.error ExtractionError.targetNotFound
    ∧ extract [{ priceName := some "per gram", convertPrice := none }] =
        Except.error ExtractionError.priceElemNotFound
    ∧ extract [{ priceName := some "per gram", convertPrice := some "n/a" }] =
        Except.error ExtractionError.parseFailed := by
  refine ⟨?_, ?_, rfl, rfl, rfl, rfl⟩
  · intro lis
    simp only [extract, specExtract, findTargetLoop_eq_find?]
  · rw [show extract [{ priceName := some "Gold gram", convertPrice := some "123,45" }] =
        Except.ok (((natOfDigits "123".data : ℚ) +
          (natOfDigits "45".data : ℚ) / 10 ^ 2) * (10 : ℚ) ^ (0 : ℤ)) from rfl]
    rw [show natOfDigits "123".data = 123 from rfl, show natOfDigits "45".data = 45 from rfl]
    simp only [Except.ok.injEq]
    norm_num

/-- C7 counterexample: the claim says the value text is normalized by
also stripping a currency symbol before parsing; the code does not
strip it.  On value text `"$93,5"` the code fails with the parse error
while the claim's normalization (modelled by
`claimExtractStripCurrency`) succeeds with `93.5`. -/
theorem C7_currency_counterexample :
    extract [{ priceName := some "Gold gram", convertPrice := some "$93,5" }] =
      Except.error ExtractionError.parseFailed
    ∧ claimExtractStripCurrency
        [{ priceName := some "Gold gram", convertPrice := some "$93,5" }] =
      Except.ok (93.5 : ℚ) := by
  refine ⟨rfl, ?_⟩
  rw [show claimExtractStripCurrency
        [{ priceName := some "Gold gram", convertPrice := some "$93,5" }] =
      Except.ok (((natOfDigits "93".data : ℚ) +
        (natOfDigits "5".data : ℚ) / 10 ^ 1) * (10 : ℚ) ^ (0 : ℤ)) from rfl]
  rw [show natOfDigits "93".data = 93 from rfl, show natOfDigits "5".data = 5 from rfl]
  simp only [Except.ok.injEq]
  norm_num

lemma cmpLe_price_iff (a b : PricedProduct) :
    cmpLe priceCmp a b = true ↔ a.price ≤ b.price := by
  rw [cmpLe, priceCmp, jsPosNum, Bool.not_eq_true', decide_eq_false_iff_not, not_lt,
    sub_nonpos, Int.cast_le]

lemma cmpLe_price_total (a b : PricedProduct) :
    cmpLe priceCmp a b = true ∨ cmpLe priceCmp b a = true := by
  rcases le_total a.price b.price with h | h
  · exact Or.inl ((cmpLe_price_iff a b).mpr h)
  · exact Or.inr ((cmpLe_price_iff b a).mpr h)

lemma cmpLe_price_trans (a b c : PricedProduct) :
    cmpLe priceCmp a b = true → cmpLe priceCmp b c = true → cmpLe priceCmp a c = true := by
  intro h1 h2
  exact (cmpLe_price_iff a c).mpr
    (le_trans ((cmpLe_price_iff a b).mp h1) ((cmpLe_price_iff b c).mp h2))

lemma cmpLe_rating_iff (a b : PricedProduct) :
    cmpLe ratingCmp a b = true ↔ b.rating ≤ a.rating := by
  rw [cmpLe, ratingCmp, jsPosNum, Bool.not_eq_true', decide_eq_false_iff_not, not_lt,
    sub_nonpos]

lemma cmpLe_rating_total (a b : PricedProduct) :
    cmpLe ratingCmp a b = true ∨ cmpLe ratingCmp b a = true := by
  rcases le_total b.rating a.rating with h | h
  · exact Or.inl ((cmpLe_rating_iff a b).mpr h)
  · exact Or.inr ((cmpLe_rating_iff b a).mpr h)

lemma cmpLe_rating_trans (a b c : PricedProduct) :
    cmpLe ratingCmp a b = true → cmpLe ratingCmp b c = true → cmpLe ratingCmp a c = true := by
  intro h1 h2
  exact (cmpLe_rating_iff a c).mpr
    (le_trans ((cmpLe_rating_iff b c).mp h2) ((cmpLe_rating_iff a b).mp h1))

lemma ratioLeQ_iff (a b : PricedProduct) :
    ratioLeQ a b = true ↔ b.rating / (b.price : ℚ) ≤ a.rating / (a.price : ℚ) := by
  rw [ratioLeQ, decide_eq_true_iff]

lemma ratioLeQ_total (a b : PricedProduct) :
    ratioLeQ a b = true ∨ ratioLeQ b a = true := by
  rcases le_total (b.rating / (b.price : ℚ)) (a.rating / (a.price : ℚ)) with h | h
  · exact Or.inl ((ratioLeQ_iff a b).mpr h)
  · exact Or.inr ((ratioLeQ_iff b a).mpr h)

lemma ratioLeQ_trans (a b c : PricedProduct) :
    ratioLeQ a b = true → ratioLeQ b c = true → ratioLeQ a c = true := by
  intro h1 h2
  exact (ratioLeQ_iff a c).mpr
    (le_trans ((ratioLeQ_iff b c).mp h2) ((ratioLeQ_iff a b).mp h1))

lemma cmpLe_ratio_eq_ratioLeQ (a b : PricedProduct)
    (ha : 0 < a.price) (hb : 0 < b.price) :
    cmpLe ratioCmp a b = ratioLeQ a b := by
  have ha' : ¬((a.price : ℚ) = 0) := by
    intro h
    exact absurd (by exact_mod_cast h : a.price = 0) (by omega)
  have hb' : ¬((b.price : ℚ) = 0) := by
    intro h
    exact absurd (by exact_mod_cast h : b.price = 0) (by omega)
  rw [cmpLe, ratioCmp, jsDivQ, if_neg hb', jsDivQ, if_neg ha', jsSubNum, jsPosNum, ratioLeQ,
    ← decide_not, decide_eq_decide]
  constructor
  · intro h
    linarith
  · intro h
    linarith

/-- C6: ordering of the `/api/products` result.  `sortBy=price` yields
non-decreasing price; `sortBy=rating` yields non-increasing rating;
`sortBy=ratio` yields non-increasing `rating/price` whenever every
computed price is positive (the ratios all exist; a zero price is the
NaN edge case settled separately); any other `sortBy` value, including
absent and the empty string, leaves the filtered list untouched, which
is a sublist of the catalog's mapped entries in insertion order. -/
theorem C6_sort_orders :
    ∀ (q : Query) (g : ℚ) (cat : List Product),
      (q.sortBy = some "price" →
        (handleProducts q g cat).Pairwise (fun a b => a.price ≤ b.price))
      ∧ (q.sortBy = some "rating" →
        (handleProducts q g cat).Pairwise (fun a b => b.rating ≤ a.rating))
      ∧ (q.sortBy = some "ratio" → (∀ e ∈ computeAll g cat, 0 < e.price) →
        (handleProducts q g cat).Pairwise
          (fun a b => b.rating / (b.price : ℚ) ≤ a.rating / (a.price : ℚ)))
      ∧ (∀ s, q.sortBy = some s → s ≠ "price" → s ≠ "rating" → s ≠ "ratio" →
          handleProducts q g cat = applyFilters q (computeAll g cat))
      ∧ (q.sortBy = none → handleProducts q g cat = applyFilters q (computeAll g cat))
      ∧ List.Sublist (applyFilters q (computeAll g cat)) (computeAll g cat) := by
  intro q g cat
  refine ⟨?_, ?_, ?_, ?_, ?_, applyFilters_sublist q _⟩
  · intro hsb
    have hh : handleProducts q g cat =
        jsSort (cmpLe priceCmp) (applyFilters q (computeAll g cat)) := by
      rw [handleProducts, hsb]
      rfl
    rw [hh]
    exact (pairwise_jsSort (cmpLe priceCmp) cmpLe_price_total cmpLe_price_trans _).imp
      (fun hab => (cmpLe_price_iff _ _).mp hab)
  · intro hsb
    have hh : handleProducts q g cat =
        jsSort (cmpLe ratingCmp) (applyFilters q (computeAll g cat)) := by
      rw [handleProducts, hsb]
      rfl
    rw [hh]
    exact (pairwise_jsSort (cmpLe ratingCmp) cmpLe_rating_total cmpLe_rating_trans _).imp
      (fun hab => (cmpLe_rating_iff _ _).mp hab)
  · intro hsb hpos
    have hl : ∀ e ∈ applyFilters q (computeAll g cat), 0 < e.price :=
      fun e he => hpos e ((applyFilters_sublist q _).subset he)
    have hh : handleProducts q g cat =
        jsSort (cmpLe ratioCmp) (applyFilters q (computeAll g cat)) := by
      rw [handleProducts, hsb]
      rfl
    have hcongr := jsSort_congr (cmpLe ratioCmp) ratioLeQ
      (applyFilters q (computeAll g cat))
      (fun a ha b hb => cmpLe_ratio_eq_ratioLeQ a b (hl a ha) (hl b hb))
    rw [hh, hcongr]
    exact (pairwise_jsSort ratioLeQ ratioLeQ_total ratioLeQ_trans _).imp
      (fun hab => (ratioLeQ_iff _ _).mp hab)
  · intro s hsb h1 h2 h3
    rw [handleProducts, hsb]
    by_cases hs : s = ""
    · subst hs
      rfl
    · simp [applySort, jsTruthy, hs, h1, h2, h3]
  · intro hsb
    rw [handleProducts, hsb]
    rfl

/-- C6 witness: a concrete `sortBy=price` request yields a
non-decreasing price sequence. -/
theorem C6_sort_orders_witness :
    (handleProducts { sortBy := some "price" } 100
      [{ id := 1, name := "A", weight := 2, popularityScore := 1/2 },
       { id := 2, name := "B", weight := 1, popularityScore := 1/2 }]).Pairwise
      (fun a b => a.price ≤ b.price) :=
  (C6_sort_orders { sortBy := some "price" } 100
    [{ id := 1, name := "A", weight := 2, popularityScore := 1/2 },
     { id := 2, name := "B", weight := 1, popularityScore := 1/2 }]).1 rfl

/-- C8: for every acquisition history and every request, the endpoint
responds with the JSON-array form whose elements are priced entries
computed from catalog records — acquisition failures never surface as
an HTTP error — and a bound set matching no entries yields the empty
JSON array, not an error. -/
theorem C8_always_json_array :
    ∀ (h : List (List (Option ℚ))) (q : Query) (cat : List Product),
      (∃ l, serveRequest h q cat = ApiResponse.json l
        ∧ ∀ x ∈ l, ∃ p ∈ cat, x = computePriced (priceAfterHistory h) p)
      ∧ ((∀ x ∈ computeAll (priceAfterHistory h) cat, passesBounds q x = false) →
          serveRequest h q cat = ApiResponse.json []) := by
  intro h q cat
  constructor
  · refine ⟨handleProducts q (priceAfterHistory h) cat, rfl, ?_⟩
    intro x hx
    have hx1 : x ∈ applyFilters q (computeAll (priceAfterHistory h) cat) :=
      (mem_applySort _ _ x).mp hx
    have hx2 : x ∈ computeAll (priceAfterHistory h) cat :=
      ((mem_applyFilters _ _ x).mp hx1).1
    rcases List.mem_map.mp hx2 with ⟨p, hp, hpe⟩
    exact ⟨p, hp, hpe.symm⟩
  · intro hall
    have hnil : applyFilters q (computeAll (priceAfterHistory h) cat) = [] :=
      applyFilters_eq_nil _ _ hall
    rw [serveRequest, productsHandler, handleProducts, hnil, applySort_nil]

/-- C8 witness: a fully failed acquisition history still serves the
JSON-array response (here the empty one). -/
theorem C8_always_json_witness :
    serveRequest [[none, none, none]] {} [] = ApiResponse.json [] :=
  (C8_always_json_array [[none, none, none]] {} []).2 (by intro x hx; simp [computeAll] at hx)

end Gilded
